import Mathlib

/-!
Verification of the TransferSync plugin (moviepilot-TransferSync).

The repository ships the Vue front-end sources (Config.vue, Page.vue,
Dashboard.vue and their compiled module-federation bundles) together with
documentation of the Python back-end.  The front-end components are embedded
here directly from their sources; the synchronization engine (diff planner,
strategy executor, worker pool, job registry) is not part of the shipped
sources and is modelled from the specification where a claim needs it.
-/

namespace TransferSync

/-! ## Front-end data: select options (Config.vue) -/

/-- One entry of a Vuetify select box: a display title and a value string. -/
structure SelectOption where
  title : String
  value : String
deriving DecidableEq, Repr

/-- The trigger-event options of Config.vue (`triggerEventOptions`). -/
def triggerEventOptions : List SelectOption :=
  [ ⟨"整理完成", "transfer.complete"⟩
  , ⟨"下载添加", "download.added"⟩
  , ⟨"订阅完成", "subscribe.complete"⟩
  , ⟨"媒体添加", "media.added"⟩
  , ⟨"文件移动", "file.moved"⟩
  , ⟨"目录扫描完成", "directory.scan.complete"⟩
  , ⟨"刮削完成", "scrape.complete"⟩
  , ⟨"插件触发", "plugin.triggered"⟩ ]

/-! ## Front-end: Config.vue configuration object and defaults -/

/-- The configuration record held by Config.vue (`config` ref). -/
structure PluginConfig where
  enabled : Bool
  source_path : String
  target_path : String
  sync_type : String
  execution_mode : String
  delay_minutes : Int
  enable_notifications : Bool
  notification_channel : String
  sync_strategy : String
  max_depth : Int
  file_filters : String
  exclude_patterns : String
  max_workers : Int
  trigger_events : List String
deriving DecidableEq, Repr

/-- A partial configuration: the `initialConfig` prop, a JS object that may
supply any subset of the configuration fields (`none` = field absent). -/
structure InitialConfig where
  enabled : Option Bool := none
  source_path : Option String := none
  target_path : Option String := none
  sync_type : Option String := none
  execution_mode : Option String := none
  delay_minutes : Option Int := none
  enable_notifications : Option Bool := none
  notification_channel : Option String := none
  sync_strategy : Option String := none
  max_depth : Option Int := none
  file_filters : Option String := none
  exclude_patterns : Option String := none
  max_workers : Option Int := none
  trigger_events : Option (List String) := none

/-- The empty `initialConfig` object (no fields supplied). -/
def emptyInitial : InitialConfig := {}

/-- Config.vue's `config` initializer: the object spread
`{ enabled: false, ..., trigger_events: ['transfer.complete'], ...props.initialConfig }` —
each literal default is overridden by the corresponding field of
`initialConfig` when that field is present. -/
def mergeConfig (init : InitialConfig) : PluginConfig where
  enabled := init.enabled.getD false
  source_path := init.source_path.getD ""
  target_path := init.target_path.getD ""
  sync_type := init.sync_type.getD "incremental"
  execution_mode := init.execution_mode.getD "immediate"
  delay_minutes := init.delay_minutes.getD 5
  enable_notifications := init.enable_notifications.getD false
  notification_channel := init.notification_channel.getD "telegram"
  sync_strategy := init.sync_strategy.getD "copy"
  max_depth := init.max_depth.getD (-1)
  file_filters := init.file_filters.getD ""
  exclude_patterns := init.exclude_patterns.getD ""
  max_workers := init.max_workers.getD 4
  trigger_events := init.trigger_events.getD ["transfer.complete"]

/-! ## Front-end: Page.vue formatting helpers -/

/-- Page.vue's `strategyMap` lookup table. -/
def strategyMap : List (String × String) :=
  [("copy", "复制"), ("move", "移动"), ("softlink", "软链接"), ("hardlink", "硬链接")]

/-- Page.vue's `typeMap` lookup table. -/
def typeMap : List (String × String) :=
  [("incremental", "增量"), ("full", "全量")]

/-- A JS runtime value relevant to the formatting helpers: either a string,
or a member inherited from `Object.prototype` (a function or object — never a
string), identified by its property name. -/
inductive JsValue where
  | str (s : String)
  | protoMember (name : String)
deriving DecidableEq, Repr

/-- The property names a plain JS object literal inherits from
`Object.prototype`, each bound to a truthy non-string member (functions, and
the `__proto__` accessor yielding the prototype object). -/
def objectProtoKeys : List String :=
  ["constructor", "hasOwnProperty", "isPrototypeOf", "propertyIsEnumerable",
   "toLocaleString", "toString", "valueOf", "__proto__",
   "__defineGetter__", "__defineSetter__", "__lookupGetter__", "__lookupSetter__"]

/-- JS property read `obj[key]` on a plain object literal whose own
properties are the string-valued `own` entries: an own property wins;
otherwise the key is found on `Object.prototype` when it names an inherited
member; otherwise the read is `undefined` (`none`). -/
def jsIndex (own : List (String × String)) (key : String) : Option JsValue :=
  match own.lookup key with
  | some v => some (JsValue.str v)
  | none =>
      if key ∈ objectProtoKeys then some (JsValue.protoMember key) else none

/-- JS truthiness of a property-read result: `undefined` and the empty
string are falsy; non-empty strings and inherited members are truthy. -/
def jsTruthy : Option JsValue → Bool
  | none => false
  | some (JsValue.str s) => !s.isEmpty
  | some (JsValue.protoMember _) => true

/-- The JS `x || y` for a property read `x`: `x` when truthy, else `y`. -/
def jsOrElse (x : Option JsValue) (y : JsValue) : JsValue :=
  match x with
  | some v => if jsTruthy (some v) then v else y
  | none => y

/-- Page.vue's `formatStrategy`: `strategyMap[strategy] || strategy` — the
object index including the `Object.prototype` chain, falling back to the
input only when the read is falsy. -/
def formatStrategy (strategy : String) : JsValue :=
  jsOrElse (jsIndex strategyMap strategy) (JsValue.str strategy)

/-- Page.vue's `formatSyncType`: `typeMap[type] || type`, with the same
prototype-chain semantics. -/
def formatSyncType (t : String) : JsValue :=
  jsOrElse (jsIndex typeMap t) (JsValue.str t)

/-! ## Front-end: getStatus of Dashboard.vue / Page.vue -/

/-- Truthiness of a JS `error` field modelled as `Option String`:
absent (`none`) or the empty string are falsy. -/
def isTruthyError (e : Option String) : Bool :=
  match e with
  | none => false
  | some s => !s.isEmpty

/-- A resolved JS API response object: an optional `error` field and the
status payload carried by the rest of the object. -/
structure ApiResult (α : Type) where
  error : Option String
  payload : α

/-- The behaviour of one `api.get('sync_status')` call: the promise either
rejects (an exception is thrown) or resolves to a possibly-null value. -/
inductive ApiCall (α : Type) where
  | throws
  | returns (r : Option (ApiResult α))

/-- The component state touched by `getStatus`: the held `status` ref and the
`loading` ref. -/
structure CompState (α : Type) where
  status : α
  loading : Bool

/-- Dashboard.vue's `getStatus`: early-returns unless `allowRefresh` and
`api` are truthy; otherwise sets `loading`, assigns `status.value = result`
only when `result && !result.error`, logs on exception, and resets
`loading` in `finally`. -/
def getStatusDashboard {α : Type} (allowRefresh hasApi : Bool)
    (call : ApiCall α) (st : CompState α) : CompState α :=
  if !allowRefresh || !hasApi then st
  else
    let st1 : CompState α := { st with loading := true }
    let st2 : CompState α :=
      match call with
      | ApiCall.throws => st1
      | ApiCall.returns none => st1
      | ApiCall.returns (some r) =>
          if isTruthyError r.error then st1 else { st1 with status := r.payload }
    { st2 with loading := false }

/-- Page.vue's `getStatus`: same structure as the Dashboard one but with no
`allowRefresh` guard.  The variant in the standalone dashboard widget
additionally stamps the accepted payload (`{...result, last_sync_time: ...}`),
modelled by the `stamp` function. -/
def getStatusPage {α : Type} (stamp : α → α) (call : ApiCall α)
    (st : CompState α) : CompState α :=
  let st1 : CompState α := { st with loading := true }
  let st2 : CompState α :=
    match call with
    | ApiCall.throws => st1
    | ApiCall.returns none => st1
    | ApiCall.returns (some r) =>
        if isTruthyError r.error then st1 else { st1 with status := stamp r.payload }
  { st2 with loading := false }

/-- The successful payload of a call, when the result is non-null and its
`error` field is absent or falsy. -/
def goodPayload {α : Type} (call : ApiCall α) : Option α :=
  match call with
  | ApiCall.throws => none
  | ApiCall.returns none => none
  | ApiCall.returns (some r) => if isTruthyError r.error then none else some r.payload

/-! ## Synchronization engine (modelled from the spec)

The Python back-end (`__init__.py`) is not among the shipped sources; the
definitions below are modelled from the specification's §3–§4.6 and carry a
`Modelled from the spec:` marker. -/

/-- Modelled from the spec: the sync-type enumeration (`SyncType`). -/
inductive SyncType where
  | incremental
  | full
deriving DecidableEq, Repr

/-- File metadata used by the incremental diff: size and modification time. -/
structure FileMeta where
  size : Nat
  mtime : Nat
deriving DecidableEq, Repr

/-- A path relative to the configured source root, as components. -/
abbrev RelPath := List String

/-- The target tree seen through metadata lookups: the mirrored relative path
either holds a file with metadata or is absent. -/
abbrev TargetFS := RelPath → Option FileMeta

/-- A regular file discovered by the source-tree walk. -/
structure SrcFile where
  path : RelPath
  meta : FileMeta
deriving DecidableEq, Repr

/-- Modelled from the spec: the configuration snapshot fields consulted by the
Diff Planner and Path Filter (missing back-end `SyncConfiguration`). -/
structure PlanConfig where
  syncType : SyncType
  maxDepth : Int
  fileFilters : List String
  excludePatterns : List String
  sourcePath : String
  targetPath : String
deriving DecidableEq, Repr

/-- Lower-case a string character by character. -/
def lowerStr (s : String) : String := String.mk (s.data.map Char.toLower)

/-- The extension of a file name: its trailing dot-segment, or `none` when the
name has no dot. -/
def extOf (name : String) : Option String :=
  match name.splitOn "." with
  | [] => none
  | [_] => none
  | parts => parts.getLast?

/-- Whether `needle` occurs at the start of `hay`. -/
def prefixChars : List Char → List Char → Bool
  | [], _ => true
  | _ :: _, [] => false
  | a :: as, b :: bs => a = b && prefixChars as bs

/-- Whether `needle` occurs somewhere inside `hay`. -/
def containsSub (needle hay : List Char) : Bool :=
  match hay with
  | [] => needle.isEmpty
  | _ :: t => prefixChars needle hay || containsSub needle t

/-- Whether `pat` is a (case-sensitive) substring of `s`. -/
def containsPattern (pat s : String) : Bool := containsSub pat.data s.data

/-- Join relative path components with `/`. -/
def renderRel (p : RelPath) : String := String.intercalate "/" p

/-- Modelled from the spec: the Path Filter `admits(path, depth)` (missing
back-end).  Rejects when `max_depth ≥ 0` and the depth exceeds it; when the
extension allow-list is non-empty, rejects files whose extension
(case-insensitive) is not listed; rejects paths containing any exclude
pattern as a substring.  The walk depth of a file is the number of directory
components above it. -/
def admits (cfg : PlanConfig) (p : RelPath) : Bool :=
  let depth : Int := ((p.length - 1 : Nat) : Int)
  let name := p.getLastD ""
  let depthOk := cfg.maxDepth < 0 || depth ≤ cfg.maxDepth
  let extOk := cfg.fileFilters.isEmpty ||
    (match extOf name with
     | some e => cfg.fileFilters.any (fun f => lowerStr f = lowerStr e)
     | none => false)
  let excluded := cfg.excludePatterns.any (fun pat => containsPattern pat (renderRel p))
  depthOk && extOk && !excluded

/-- Modelled from the spec: the `FileTask` record produced by the Diff
Planner. -/
structure FileTask where
  relative_path : RelPath
  source_abs_path : String
  target_abs_path : String
  size : Nat
  mtime : Nat
deriving DecidableEq, Repr

/-- An absolute path for a file under a root. -/
def absUnder (root : String) (p : RelPath) : String :=
  String.intercalate "/" (root :: p)

/-- The task the Diff Planner creates for one accepted source file. -/
def mkTask (cfg : PlanConfig) (f : SrcFile) : FileTask where
  relative_path := f.path
  source_abs_path := absUnder cfg.sourcePath f.path
  target_abs_path := absUnder cfg.targetPath f.path
  size := f.meta.size
  mtime := f.meta.mtime

/-- Modelled from the spec: the incremental-mode emission test — the mirrored
target is absent, or its size differs, or its modification time is strictly
older than the source's; equal size and mtime count as already synced. -/
def needsSync (tgt : TargetFS) (f : SrcFile) : Bool :=
  match tgt f.path with
  | none => true
  | some m => m.size ≠ f.meta.size || m.mtime < f.meta.mtime

/-- Modelled from the spec: the Diff Planner `plan(config) -> FileTask list`
(missing back-end).  The depth-first walk of the source tree is represented
by the list of regular files it discovers, in walk order; full mode emits a
task for every admitted file, incremental mode additionally requires
`needsSync`. -/
def plan (cfg : PlanConfig) (src : List SrcFile) (tgt : TargetFS) : List FileTask :=
  src.filterMap (fun f =>
    if admits cfg f.path then
      match cfg.syncType with
      | SyncType.full => some (mkTask cfg f)
      | SyncType.incremental => if needsSync tgt f then some (mkTask cfg f) else none
    else none)

/-- The metadata a completed copy leaves at the task's target path (content
copied, modification time preserved). -/
def taskMeta (t : FileTask) : FileMeta := ⟨t.size, t.mtime⟩

/-- Executing one task updates the mirrored target path with the source's
size and modification time (spec §4.3: copy preserves mtime). -/
def applyTask (tgt : TargetFS) (t : FileTask) : TargetFS :=
  fun p => if p = t.relative_path then some (taskMeta t) else tgt p

/-- Running a whole task list to completion against the target tree. -/
def applyTasks (tgt : TargetFS) (ts : List FileTask) : TargetFS :=
  ts.foldl applyTask tgt

/-- Replace the configured sync type. -/
def setSyncType (cfg : PlanConfig) (t : SyncType) : PlanConfig :=
  { cfg with syncType := t }

/-- Modelled from the spec: `manual_sync()` plans with a forced full-mode
configuration, regardless of the configured `sync_type`. -/
def manualSyncPlan (cfg : PlanConfig) (src : List SrcFile) (tgt : TargetFS) :
    List FileTask :=
  plan (setSyncType cfg SyncType.full) src tgt

/-- Modelled from the spec: `incremental_sync()` plans with a forced
incremental-mode configuration, regardless of the configured `sync_type`. -/
def incrementalSyncPlan (cfg : PlanConfig) (src : List SrcFile) (tgt : TargetFS) :
    List FileTask :=
  plan (setSyncType cfg SyncType.incremental) src tgt

/-! ## Strategy Executor: the move strategy (modelled from the spec) -/

/-- Task outcomes of a `TaskResult`. -/
inductive Outcome where
  | succeeded
  | skipped
  | failed
deriving DecidableEq, Repr

/-- A filesystem keyed by absolute path. -/
abbrev AbsFS := String → Option FileMeta

/-- The filesystem and outcome left by one strategy execution. -/
structure ExecResult where
  fs : AbsFS
  outcome : Outcome

/-- Modelled from the spec: the `move` strategy (missing back-end).  The copy
step is an oracle `copyAttempt` describing what state the filesystem is in
after the attempted copy (the copy may have failed or produced a partial
file); `move` then verifies that the target exists with size matching the
task's source size before deleting the source, and otherwise leaves the
source untouched and marks the task failed. -/
def executeMove (task : FileTask) (copyAttempt : AbsFS → AbsFS) (fs : AbsFS) :
    ExecResult :=
  let fs1 := copyAttempt fs
  match fs1 task.target_abs_path with
  | some m =>
      if m.size = task.size then
        { fs := fun p => if p = task.source_abs_path then none else fs1 p
          outcome := Outcome.succeeded }
      else { fs := fs1, outcome := Outcome.failed }
  | none => { fs := fs1, outcome := Outcome.failed }

/-- The move verification predicate: after the copy the target exists with
size matching the task's. -/
def moveVerified (task : FileTask) (fs1 : AbsFS) : Prop :=
  ∃ m, fs1 task.target_abs_path = some m ∧ m.size = task.size

instance (task : FileTask) (fs1 : AbsFS) : Decidable (moveVerified task fs1) := by
  unfold moveVerified
  cases h : fs1 task.target_abs_path with
  | none => exact Decidable.isFalse (by simp [h])
  | some m =>
      by_cases hs : m.size = task.size
      · exact Decidable.isTrue ⟨m, rfl, hs⟩
      · exact Decidable.isFalse (by simp [h, hs])

/-! ## Sync Job Controller / Trigger Dispatcher: active-job registry
(modelled from the spec) -/

/-- Job states of the Sync Job Controller state machine. -/
inductive JobState where
  | pending
  | running
  | completed
  | mixedResult
  | failed
  | cancelled
deriving DecidableEq, Repr

/-- The mutual-exclusion key: the (source_path, target_path) pair. -/
abbrev PathPair := String × String

/-- One entry of the active-job registry. -/
structure Job where
  pair : PathPair
  state : JobState
deriving DecidableEq, Repr

/-- The shared active-job registry. -/
abbrev Registry := List Job

/-- Result of asking the dispatcher to start a run. -/
inductive StartResult where
  | started
  | alreadyRunning
deriving DecidableEq, Repr

/-- Some job for the pair is in RUNNING state. -/
def hasRunning (reg : Registry) (pp : PathPair) : Bool :=
  reg.any (fun j => decide (j.pair = pp ∧ j.state = JobState.running))

/-- Modelled from the spec: starting a run (manual, incremental or triggered)
first consults the registry atomically; when a RUNNING job already exists for
the same (source_path, target_path) pair the call is rejected with
`AlreadyRunning` and no job is created, otherwise a new RUNNING job is
registered. -/
def startJob (reg : Registry) (pp : PathPair) : Registry × StartResult :=
  if hasRunning reg pp then (reg, StartResult.alreadyRunning)
  else (⟨pp, JobState.running⟩ :: reg, StartResult.started)

/-- Modelled from the spec: a run's completion moves its RUNNING registry
entry (the first one for the pair) to the terminal state `s`. -/
def finishJob : Registry → PathPair → JobState → Registry
  | [], _, _ => []
  | j :: rest, pp, s =>
      if j.pair = pp ∧ j.state = JobState.running then { j with state := s } :: rest
      else j :: finishJob rest pp s

/-- Events the registry reacts to. -/
inductive RegStep where
  | start (pp : PathPair)
  | finish (pp : PathPair) (s : JobState)

/-- One registry transition. -/
def applyRegStep (reg : Registry) : RegStep → Registry
  | RegStep.start pp => (startJob reg pp).1
  | RegStep.finish pp s => finishJob reg pp s

/-- The registry reached from the empty initial registry by a step sequence. -/
def runRegSteps (steps : List RegStep) : Registry :=
  steps.foldl applyRegStep []

/-- How many RUNNING jobs the registry holds for a pair. -/
def runningCount (reg : Registry) (pp : PathPair) : Nat :=
  reg.countP (fun j => decide (j.pair = pp ∧ j.state = JobState.running))

/-! ## Worker Pool (modelled from the spec) -/

/-- Modelled from the spec: the effective worker count — at least 1 and
clamped to the upper bound 16 (the bounds the Config.vue `max_workers` field
also enforces with `min="1" max="16"`). -/
def effectiveWorkers (n : Int) : Nat := (max 1 (min n 16)).toNat

/-- Instrumentation view of the pool: queued, executing and finished task
counters. -/
structure PoolState where
  queued : Nat
  executing : Nat
  finished : Nat
deriving DecidableEq, Repr

/-- Pool events: a worker dispatches the next queued task, or a running task
finishes. -/
inductive PoolStep where
  | dispatch
  | finish

/-- Modelled from the spec: one scheduler transition of the Worker Pool with
`w` workers — a task is dispatched only while fewer than `w` tasks are
executing. -/
def poolStep (w : Nat) (st : PoolState) : PoolStep → PoolState
  | PoolStep.dispatch =>
      if st.executing < w ∧ 0 < st.queued then
        { queued := st.queued - 1, executing := st.executing + 1, finished := st.finished }
      else st
  | PoolStep.finish =>
      if 0 < st.executing then
        { queued := st.queued, executing := st.executing - 1, finished := st.finished + 1 }
      else st

/-- The pool state reached from `tasks` queued tasks by a step sequence. -/
def poolRun (w : Nat) (tasks : Nat) (steps : List PoolStep) : PoolState :=
  steps.foldl (poolStep w) ⟨tasks, 0, 0⟩

/-! ## Concrete instances used by witnesses -/

/-- An incremental-mode configuration with no filters. -/
def cfgInc : PlanConfig := ⟨SyncType.incremental, -1, [], [], "/a", "/b"⟩

/-- A sample source file. -/
def fileX : SrcFile := ⟨["x.mp4"], ⟨10, 100⟩⟩

/-- An empty target tree. -/
def tgtEmpty : TargetFS := fun _ => none

/-- A sample move task. -/
def taskMove : FileTask := ⟨["x.mp4"], "/a/x.mp4", "/b/x.mp4", 10, 100⟩

/-- A filesystem holding only the move task's source file. -/
def fsMove : AbsFS := fun p => if p = "/a/x.mp4" then some ⟨10, 5⟩ else none

/-- A copy attempt that produced a truncated target file (wrong size). -/
def copyBad : AbsFS → AbsFS :=
  fun f p => if p = "/b/x.mp4" then some ⟨7, 5⟩ else f p

/-! ## Theorems -/

/-- The incremental emission test spelt out as the spec's condition. -/
theorem needsSync_eq_true_iff (tgt : TargetFS) (f : SrcFile) :
    needsSync tgt f = true ↔
      (tgt f.path = none ∨
       ∃ m, tgt f.path = some m ∧ (m.size ≠ f.meta.size ∨ m.mtime < f.meta.mtime)) := by
  unfold needsSync
  cases h : tgt f.path with
  | none => simp
  | some m => simp

/-- Task construction is injective in the source file. -/
theorem mkTask_inj {cfg : PlanConfig} {f g : SrcFile}
    (h : mkTask cfg f = mkTask cfg g) : f = g := by
  have hp : f.path = g.path := congrArg FileTask.relative_path h
  have hs : f.meta.size = g.meta.size := congrArg FileTask.size h
  have hm : f.meta.mtime = g.meta.mtime := congrArg FileTask.mtime h
  obtain ⟨pf, sf, mf⟩ := f
  obtain ⟨pg, sg, mg⟩ := g
  simp_all

/-- Claim C7: the set of accepted TriggerEvent values is exactly the eight
values `transfer.complete, download.added, subscribe.complete, media.added,
file.moved, directory.scan.complete, scrape.complete, plugin.triggered` —
the trigger-event options offered by the configuration component carry
precisely these values and no others. -/
theorem triggerEventOptions_values_exact :
    triggerEventOptions.map SelectOption.value =
      ["transfer.complete", "download.added", "subscribe.complete", "media.added",
       "file.moved", "directory.scan.complete", "scrape.complete", "plugin.triggered"] := by
  rfl

/-- Claim C8: with no `initialConfig` fields supplied, the Config component
holds exactly the documented defaults, and any supplied field overrides the
corresponding default. -/
theorem mergeConfig_defaults_and_overrides :
    mergeConfig emptyInitial =
      ⟨false, "", "", "incremental", "immediate", 5, false, "telegram", "copy",
       -1, "", "", 4, ["transfer.complete"]⟩ ∧
    (∀ (i : InitialConfig) v, (mergeConfig { i with enabled := some v }).enabled = v) ∧
    (∀ (i : InitialConfig) v, (mergeConfig { i with source_path := some v }).source_path = v) ∧
    (∀ (i : InitialConfig) v, (mergeConfig { i with target_path := some v }).target_path = v) ∧
    (∀ (i : InitialConfig) v, (mergeConfig { i with sync_type := some v }).sync_type = v) ∧
    (∀ (i : InitialConfig) v, (mergeConfig { i with execution_mode := some v }).execution_mode = v) ∧
    (∀ (i : InitialConfig) v, (mergeConfig { i with delay_minutes := some v }).delay_minutes = v) ∧
    (∀ (i : InitialConfig) v, (mergeConfig { i with enable_notifications := some v }).enable_notifications = v) ∧
    (∀ (i : InitialConfig) v, (mergeConfig { i with notification_channel := some v }).notification_channel = v) ∧
    (∀ (i : InitialConfig) v, (mergeConfig { i with sync_strategy := some v }).sync_strategy = v) ∧
    (∀ (i : InitialConfig) v, (mergeConfig { i with max_depth := some v }).max_depth = v) ∧
    (∀ (i : InitialConfig) v, (mergeConfig { i with file_filters := some v }).file_filters = v) ∧
    (∀ (i : InitialConfig) v, (mergeConfig { i with exclude_patterns := some v }).exclude_patterns = v) ∧
    (∀ (i : InitialConfig) v, (mergeConfig { i with max_workers := some v }).max_workers = v) ∧
    (∀ (i : InitialConfig) v, (mergeConfig { i with trigger_events := some v }).trigger_events = v) := by
  refine ⟨rfl, ?_, ?_, ?_, ?_, ?_, ?_, ?_, ?_, ?_, ?_, ?_, ?_, ?_, ?_⟩ <;>
    intro i v <;> rfl

/-- Claim C9: in every `getStatus`, the held status is replaced exactly when
the call resolves to a non-null result whose `error` field is absent or
falsy (in the widget variant the accepted payload is stamped); on an error
response or a thrown exception the previous status is kept, and `loading`
ends up `false` on every path. -/
theorem getStatus_error_handling :
    ∀ (α : Type) (stamp : α → α) (call : ApiCall α) (st : CompState α),
      (getStatusDashboard true true call st).loading = false ∧
      (getStatusDashboard true true call st).status = (goodPayload call).getD st.status ∧
      (getStatusPage stamp call st).loading = false ∧
      (getStatusPage stamp call st).status =
        ((goodPayload call).map stamp).getD st.status := by
  intro α stamp call st
  cases call with
  | throws => exact ⟨rfl, rfl, rfl, rfl⟩
  | returns r =>
      cases r with
      | none => exact ⟨rfl, rfl, rfl, rfl⟩
      | some v =>
          by_cases h : isTruthyError v.error = true
          · simp [getStatusDashboard, getStatusPage, goodPayload, h]
          · simp [getStatusDashboard, getStatusPage, goodPayload,
              Bool.not_eq_true _ ▸ h]

/-- Counterexample to claim C10 as stated: `"toString"` is none of the four
known strategy values (and neither sync type), yet the object index finds the
inherited `Object.prototype.toString`, which is truthy, so both helpers
return that inherited member — not the input string unchanged. -/
theorem format_helpers_counterexample :
    "toString" ∉ ["copy", "move", "softlink", "hardlink"] ∧
    "toString" ∉ ["incremental", "full"] ∧
    formatStrategy "toString" = JsValue.protoMember "toString" ∧
    formatStrategy "toString" ≠ JsValue.str "toString" ∧
    formatSyncType "toString" = JsValue.protoMember "toString" ∧
    formatSyncType "toString" ≠ JsValue.str "toString" := by
  decide

/-- Claim C10 (amended): `formatStrategy` maps the four known strategy values
to their Chinese labels; any other input that does not name an inherited
`Object.prototype` property comes back unchanged, while an input naming an
inherited member (`toString`, `constructor`, `valueOf`, ...) yields that
truthy inherited member instead of the input.  `formatSyncType` behaves the
same way for the two sync types.  Both are total Lean functions, hence
deterministic. -/
theorem format_helpers_amended :
    formatStrategy "copy" = JsValue.str "复制" ∧
    formatStrategy "move" = JsValue.str "移动" ∧
    formatStrategy "softlink" = JsValue.str "软链接" ∧
    formatStrategy "hardlink" = JsValue.str "硬链接" ∧
    formatSyncType "incremental" = JsValue.str "增量" ∧
    formatSyncType "full" = JsValue.str "全量" ∧
    (∀ s, s ∉ ["copy", "move", "softlink", "hardlink"] → s ∉ objectProtoKeys →
      formatStrategy s = JsValue.str s) ∧
    (∀ s, s ∉ ["copy", "move", "softlink", "hardlink"] → s ∈ objectProtoKeys →
      formatStrategy s = JsValue.protoMember s) ∧
    (∀ t, t ∉ ["incremental", "full"] → t ∉ objectProtoKeys →
      formatSyncType t = JsValue.str t) ∧
    (∀ t, t ∉ ["incremental", "full"] → t ∈ objectProtoKeys →
      formatSyncType t = JsValue.protoMember t) := by
  refine ⟨rfl, rfl, rfl, rfl, rfl, rfl, ?_, ?_, ?_, ?_⟩
  · intro s hs hp
    simp only [List.mem_cons, List.not_mem_nil, or_false, not_or] at hs
    obtain ⟨h1, h2, h3, h4⟩ := hs
    have e1 : (s == "copy") = false := beq_eq_false_iff_ne.mpr h1
    have e2 : (s == "move") = false := beq_eq_false_iff_ne.mpr h2
    have e3 : (s == "softlink") = false := beq_eq_false_iff_ne.mpr h3
    have e4 : (s == "hardlink") = false := beq_eq_false_iff_ne.mpr h4
    simp [formatStrategy, jsOrElse, jsIndex, strategyMap, List.lookup,
      e1, e2, e3, e4, hp]
  · intro s hs hp
    simp only [List.mem_cons, List.not_mem_nil, or_false, not_or] at hs
    obtain ⟨h1, h2, h3, h4⟩ := hs
    have e1 : (s == "copy") = false := beq_eq_false_iff_ne.mpr h1
    have e2 : (s == "move") = false := beq_eq_false_iff_ne.mpr h2
    have e3 : (s == "softlink") = false := beq_eq_false_iff_ne.mpr h3
    have e4 : (s == "hardlink") = false := beq_eq_false_iff_ne.mpr h4
    simp [formatStrategy, jsOrElse, jsIndex, jsTruthy, strategyMap, List.lookup,
      e1, e2, e3, e4, hp]
  · intro t ht hp
    simp only [List.mem_cons, List.not_mem_nil, or_false, not_or] at ht
    obtain ⟨h1, h2⟩ := ht
    have e1 : (t == "incremental") = false := beq_eq_false_iff_ne.mpr h1
    have e2 : (t == "full") = false := beq_eq_false_iff_ne.mpr h2
    simp [formatSyncType, jsOrElse, jsIndex, typeMap, List.lookup, e1, e2, hp]
  · intro t ht hp
    simp only [List.mem_cons, List.not_mem_nil, or_false, not_or] at ht
    obtain ⟨h1, h2⟩ := ht
    have e1 : (t == "incremental") = false := beq_eq_false_iff_ne.mpr h1
    have e2 : (t == "full") = false := beq_eq_false_iff_ne.mpr h2
    simp [formatSyncType, jsOrElse, jsIndex, jsTruthy, typeMap, List.lookup,
      e1, e2, hp]

/-- Witness for `format_helpers_amended` at the concrete inputs `"other"`
and `"weekly"` (ordinary misses) and `"toString"` and `"valueOf"`
(inherited members). -/
theorem format_helpers_amended_witness :
    formatStrategy "other" = JsValue.str "other" ∧
    formatStrategy "toString" = JsValue.protoMember "toString" ∧
    formatSyncType "weekly" = JsValue.str "weekly" ∧
    formatSyncType "valueOf" = JsValue.protoMember "valueOf" :=
  ⟨format_helpers_amended.2.2.2.2.2.2.1 "other" (by decide) (by decide),
   format_helpers_amended.2.2.2.2.2.2.2.1 "toString" (by decide) (by decide),
   format_helpers_amended.2.2.2.2.2.2.2.2.1 "weekly" (by decide) (by decide),
   format_helpers_amended.2.2.2.2.2.2.2.2.2 "valueOf" (by decide) (by decide)⟩

/-- Claim C1: in incremental mode, for every source file accepted by the
Path Filter, `plan` emits the file's task exactly when the mirrored target
is absent, or its size differs, or its modification time is strictly older
than the source's; with equal size and mtime nothing is emitted. -/
theorem plan_incremental_emits_iff
    (cfg : PlanConfig) (src : List SrcFile) (tgt : TargetFS) (f : SrcFile)
    (hmode : cfg.syncType = SyncType.incremental)
    (hmem : f ∈ src) (hadm : admits cfg f.path = true) :
    mkTask cfg f ∈ plan cfg src tgt ↔
      (tgt f.path = none ∨
       ∃ m, tgt f.path = some m ∧ (m.size ≠ f.meta.size ∨ m.mtime < f.meta.mtime)) := by
  rw [← needsSync_eq_true_iff]
  constructor
  · intro hin
    obtain ⟨g, hg, hfg⟩ := List.mem_filterMap.mp hin
    by_cases ha : admits cfg g.path
    · rw [hmode] at hfg
      by_cases hn : needsSync tgt g
      · simp only [ha, if_true, hn, Option.some.injEq] at hfg
        exact mkTask_inj hfg ▸ hn
      · simp [ha, hn] at hfg
    · simp [ha] at hfg
  · intro hn
    exact List.mem_filterMap.mpr ⟨f, hmem, by simp [hadm, hmode, hn]⟩

/-- Witness for `plan_incremental_emits_iff`: the accepted file `x.mp4`
against an empty target. -/
theorem plan_incremental_emits_iff_witness :
    mkTask cfgInc fileX ∈ plan cfgInc [fileX] tgtEmpty ↔
      (tgtEmpty fileX.path = none ∨
       ∃ m, tgtEmpty fileX.path = some m ∧
         (m.size ≠ fileX.meta.size ∨ m.mtime < fileX.meta.mtime)) :=
  plan_incremental_emits_iff cfgInc [fileX] tgtEmpty fileX rfl (by simp) (by decide)

/-- The Path Filter ignores the configured sync type. -/
theorem admits_setSyncType (cfg : PlanConfig) (t : SyncType) (p : RelPath) :
    admits (setSyncType cfg t) p = admits cfg p := rfl

/-- Task construction ignores the configured sync type. -/
theorem mkTask_setSyncType (cfg : PlanConfig) (t : SyncType) (f : SrcFile) :
    mkTask (setSyncType cfg t) f = mkTask cfg f := rfl

/-- A full-mode plan emits one task per admitted file. -/
theorem plan_eq_of_full (cfg : PlanConfig) (src : List SrcFile) (tgt : TargetFS)
    (h : cfg.syncType = SyncType.full) :
    plan cfg src tgt = (src.filter (fun f => admits cfg f.path)).map (mkTask cfg) := by
  induction src with
  | nil => rfl
  | cons f rest ih =>
      simp only [plan, List.filterMap_cons, h, List.filter_cons] at ih ⊢
      by_cases ha : admits cfg f.path
      · simp [ha, ih]
      · simp [ha, ih]

/-- An incremental-mode plan emits one task per admitted file needing sync. -/
theorem plan_eq_of_incremental (cfg : PlanConfig) (src : List SrcFile) (tgt : TargetFS)
    (h : cfg.syncType = SyncType.incremental) :
    plan cfg src tgt =
      src.filterMap (fun f =>
        if admits cfg f.path && needsSync tgt f then some (mkTask cfg f) else none) := by
  induction src with
  | nil => rfl
  | cons f rest ih =>
      simp only [plan, List.filterMap_cons, h] at ih ⊢
      by_cases ha : admits cfg f.path
      · by_cases hn : needsSync tgt f
        · simp [ha, hn, ih]
        · simp [ha, hn, ih]
      · simp [ha, ih]

/-- Claim C5: `manual_sync` always plans a full-mode run and
`incremental_sync` always plans an incremental run; replacing the configured
`sync_type` by any value never changes what either entry point does. -/
theorem entry_points_force_mode :
    ∀ (cfg : PlanConfig) (t : SyncType) (src : List SrcFile) (tgt : TargetFS),
      manualSyncPlan (setSyncType cfg t) src tgt = manualSyncPlan cfg src tgt ∧
      incrementalSyncPlan (setSyncType cfg t) src tgt = incrementalSyncPlan cfg src tgt ∧
      manualSyncPlan cfg src tgt =
        (src.filter (fun f => admits cfg f.path)).map (mkTask cfg) ∧
      incrementalSyncPlan cfg src tgt =
        src.filterMap (fun f =>
          if admits cfg f.path && needsSync tgt f then some (mkTask cfg f) else none) := by
  intro cfg t src tgt
  exact ⟨rfl, rfl, plan_eq_of_full (setSyncType cfg SyncType.full) src tgt rfl,
    plan_eq_of_incremental (setSyncType cfg SyncType.incremental) src tgt rfl⟩

/-- One pool transition keeps the executing count within the worker bound. -/
theorem poolStep_executing_le (w : Nat) (st : PoolState) (s : PoolStep)
    (h : st.executing ≤ w) : (poolStep w st s).executing ≤ w := by
  cases s with
  | dispatch =>
      simp only [poolStep]
      split_ifs with hc
      · exact hc.1
      · exact h
  | finish =>
      simp only [poolStep]
      split_ifs with hc
      · exact le_trans (Nat.sub_le _ _) h
      · exact h

/-- Along every step sequence the executing count stays within the bound. -/
theorem poolRun_executing_le (w : Nat) (steps : List PoolStep) :
    ∀ st : PoolState, st.executing ≤ w →
      (steps.foldl (poolStep w) st).executing ≤ w := by
  induction steps with
  | nil => intro st h; exact h
  | cons s rest ih =>
      intro st h
      exact ih _ (poolStep_executing_le w st s h)

/-- Claim C6: the effective worker count is at least 1 and at most 16, and
along every schedule the Worker Pool never has more than that many tasks in
the executing state. -/
theorem worker_pool_bound :
    ∀ (maxWorkers : Int) (tasks : Nat) (steps : List PoolStep),
      1 ≤ effectiveWorkers maxWorkers ∧ effectiveWorkers maxWorkers ≤ 16 ∧
      (poolRun (effectiveWorkers maxWorkers) tasks steps).executing ≤
        effectiveWorkers maxWorkers := by
  intro maxWorkers tasks steps
  refine ⟨?_, ?_, ?_⟩
  · unfold effectiveWorkers
    omega
  · unfold effectiveWorkers
    omega
  · exact poolRun_executing_le _ steps ⟨tasks, 0, 0⟩ (Nat.zero_le _)

/-- Claim C3: the move strategy deletes the source only when, after the copy
step, the target exists with size matching the task's; whenever that
verification fails the source entry is exactly what it was before and the
outcome is `failed`.  `hcopy` states that the copy step writes nothing
outside the target path. -/
theorem move_nondestructive
    (task : FileTask) (copyAttempt : AbsFS → AbsFS) (fs : AbsFS)
    (hdistinct : task.source_abs_path ≠ task.target_abs_path)
    (hcopy : ∀ p, p ≠ task.target_abs_path → copyAttempt fs p = fs p) :
    ((executeMove task copyAttempt fs).fs task.source_abs_path ≠ fs task.source_abs_path →
      ∃ m, (executeMove task copyAttempt fs).fs task.target_abs_path = some m ∧
        m.size = task.size) ∧
    (¬ moveVerified task (copyAttempt fs) →
      (executeMove task copyAttempt fs).fs task.source_abs_path = fs task.source_abs_path ∧
      (executeMove task copyAttempt fs).outcome = Outcome.failed) := by
  have hsrc : copyAttempt fs task.source_abs_path = fs task.source_abs_path :=
    hcopy _ hdistinct
  cases htgt : copyAttempt fs task.target_abs_path with
  | none =>
      have hr : executeMove task copyAttempt fs =
          { fs := copyAttempt fs, outcome := Outcome.failed } := by
        simp only [executeMove, htgt]
      rw [hr]
      constructor
      · intro hchanged
        exact absurd hsrc hchanged
      · intro _
        exact ⟨hsrc, rfl⟩
  | some m =>
      by_cases hsize : m.size = task.size
      · have hr : executeMove task copyAttempt fs =
            { fs := fun p => if p = task.source_abs_path then none else copyAttempt fs p,
              outcome := Outcome.succeeded } := by
          simp only [executeMove, htgt]
          rw [if_pos hsize]
        rw [hr]
        constructor
        · intro _
          refine ⟨m, ?_, hsize⟩
          show (if task.target_abs_path = task.source_abs_path then none
                else copyAttempt fs task.target_abs_path) = some m
          rw [if_neg (Ne.symm hdistinct)]
          exact htgt
        · intro hnv
          exact absurd (⟨m, htgt, hsize⟩ : moveVerified task (copyAttempt fs)) hnv
      · have hr : executeMove task copyAttempt fs =
            { fs := copyAttempt fs, outcome := Outcome.failed } := by
          simp only [executeMove, htgt]
          rw [if_neg hsize]
        rw [hr]
        constructor
        · intro hchanged
          exact absurd hsrc hchanged
        · intro _
          exact ⟨hsrc, rfl⟩

/-- Witness for `move_nondestructive`: a copy that produced a truncated
target; the source entry survives and the task fails. -/
theorem move_nondestructive_witness :
    (executeMove taskMove copyBad fsMove).fs taskMove.source_abs_path =
      fsMove taskMove.source_abs_path ∧
    (executeMove taskMove copyBad fsMove).outcome = Outcome.failed :=
  (move_nondestructive taskMove copyBad fsMove (by decide)
      (fun p hp => by simp [copyBad, taskMove] at hp ⊢; simp [hp])).2
    (by decide)

/-- The registry invariant: at most one RUNNING job per path pair. -/
def regInv (reg : Registry) : Prop :=
  ∀ pp : PathPair, runningCount reg pp ≤ 1

/-- A registry with no RUNNING job for the pair counts zero RUNNING jobs. -/
theorem runningCount_eq_zero_of_not_hasRunning (reg : Registry) (pp : PathPair)
    (h : hasRunning reg pp = false) : runningCount reg pp = 0 := by
  unfold hasRunning at h
  unfold runningCount
  rw [List.countP_eq_zero]
  intro j hj
  have := (List.any_eq_false.mp h) j hj
  simpa using this

/-- Starting a job preserves the at-most-one-RUNNING invariant. -/
theorem startJob_preserves_regInv (reg : Registry) (pp : PathPair)
    (h : regInv reg) : regInv (startJob reg pp).1 := by
  unfold startJob
  cases hr : hasRunning reg pp with
  | true => simpa using h
  | false =>
      simp only [Bool.false_eq_true, if_false]
      intro pp'
      unfold runningCount
      rw [List.countP_cons]
      by_cases hpp : pp = pp'
      · subst hpp
        have h0 := runningCount_eq_zero_of_not_hasRunning reg pp hr
        unfold runningCount at h0
        rw [h0]
        simp
      · have hfalse : (decide ((Job.mk pp JobState.running).pair = pp' ∧
            (Job.mk pp JobState.running).state = JobState.running)) = false := by
          simp [hpp]
        rw [hfalse]
        have hh := h pp'
        unfold runningCount at hh
        simpa using hh

/-- Finishing a job never increases the RUNNING count of any pair. -/
theorem finishJob_runningCount_le (reg : Registry) (pp : PathPair) (s : JobState)
    (pp' : PathPair) : runningCount (finishJob reg pp s) pp' ≤ runningCount reg pp' := by
  induction reg with
  | nil => simp [finishJob]
  | cons j rest ih =>
      unfold finishJob
      by_cases hc : j.pair = pp ∧ j.state = JobState.running
      · rw [if_pos hc]
        unfold runningCount
        rw [List.countP_cons, List.countP_cons]
        have hmono : (if decide ((Job.mk j.pair s).pair = pp' ∧ (Job.mk j.pair s).state =
            JobState.running) = true then (1 : Nat) else 0) ≤
            (if decide (j.pair = pp' ∧ j.state = JobState.running) = true
             then (1 : Nat) else 0) := by
          by_cases hd : ((Job.mk j.pair s).pair = pp' ∧ (Job.mk j.pair s).state =
              JobState.running)
          · have hold : decide (j.pair = pp' ∧ j.state = JobState.running) = true := by
              simp only [decide_eq_true_eq]
              exact ⟨hd.1, hc.2⟩
            simp only [hold]
            split_ifs <;> omega
          · have hnew : (decide ((Job.mk j.pair s).pair = pp' ∧ (Job.mk j.pair s).state =
                JobState.running)) = false := by
              simpa using hd
            simp [hnew]
        omega
      · rw [if_neg hc]
        unfold runningCount
        rw [List.countP_cons, List.countP_cons]
        have := ih
        unfold runningCount at this
        omega

/-- Every reachable registry satisfies the invariant. -/
theorem regInv_runRegSteps (steps : List RegStep) : regInv (runRegSteps steps) := by
  unfold runRegSteps
  have main : ∀ (l : List RegStep) (reg : Registry), regInv reg →
      regInv (l.foldl applyRegStep reg) := by
    intro l
    induction l with
    | nil => intro reg h; exact h
    | cons st rest ih =>
        intro reg h
        refine ih _ ?_
        cases st with
        | start pp => exact startJob_preserves_regInv reg pp h
        | finish pp s =>
            intro pp'
            exact le_trans (finishJob_runningCount_le reg pp s pp') (h pp')
  refine main steps [] ?_
  intro pp
  simp [runningCount]

/-- Claim C4: every reachable registry holds at most one RUNNING job per
(source_path, target_path) pair, and a start request (such as
`manual_sync()`) arriving while a RUNNING job exists for the pair returns
`AlreadyRunning` and leaves the registry unchanged — no second job. -/
theorem job_registry_exclusive :
    ∀ (steps : List RegStep) (pp : PathPair),
      runningCount (runRegSteps steps) pp ≤ 1 ∧
      (hasRunning (runRegSteps steps) pp = true →
        startJob (runRegSteps steps) pp =
          (runRegSteps steps, StartResult.alreadyRunning)) := by
  intro steps pp
  refine ⟨regInv_runRegSteps steps pp, ?_⟩
  intro h
  unfold startJob
  rw [h]
  simp

/-- Witness for `job_registry_exclusive`: after one started job for
`("/a", "/b")`, a second start for the same pair is rejected. -/
theorem job_registry_exclusive_witness :
    runningCount (runRegSteps [RegStep.start ("/a", "/b")]) ("/a", "/b") ≤ 1 ∧
    startJob (runRegSteps [RegStep.start ("/a", "/b")]) ("/a", "/b") =
      (runRegSteps [RegStep.start ("/a", "/b")], StartResult.alreadyRunning) :=
  ⟨(job_registry_exclusive [RegStep.start ("/a", "/b")] ("/a", "/b")).1,
   (job_registry_exclusive [RegStep.start ("/a", "/b")] ("/a", "/b")).2 (by decide)⟩

/-- Tasks built by a path-preserving producer keep the walk's path list (as a
sublist). -/
theorem filterMap_rel_sublist (g : SrcFile → Option FileTask)
    (hg : ∀ f t, g f = some t → t.relative_path = f.path) :
    ∀ src : List SrcFile,
      List.Sublist ((src.filterMap g).map FileTask.relative_path)
        (src.map SrcFile.path) := by
  intro src
  induction src with
  | nil => simp
  | cons f rest ih =>
      rw [List.filterMap_cons, List.map_cons]
      cases h : g f with
      | none => exact List.Sublist.cons _ ih
      | some t =>
          rw [List.map_cons, hg f t h]
          exact List.Sublist.cons₂ _ ih

/-- The planner's task paths form a sublist of the walked file paths. -/
theorem plan_paths_sublist (cfg : PlanConfig) (src : List SrcFile) (tgt : TargetFS) :
    List.Sublist ((plan cfg src tgt).map FileTask.relative_path)
      (src.map SrcFile.path) := by
  unfold plan
  refine filterMap_rel_sublist _ ?_ src
  intro f t h
  by_cases ha : admits cfg f.path
  · cases hcs : cfg.syncType with
    | incremental =>
        rw [hcs] at h
        by_cases hn : needsSync tgt f
        · simp only [ha, if_true, hn, Option.some.injEq] at h
          rw [← h]
          rfl
        · simp [ha, hn] at h
    | full =>
        rw [hcs] at h
        simp only [ha, if_true, Option.some.injEq] at h
        rw [← h]
        rfl
  · simp [ha] at h

/-- In a walk with duplicate-free paths, a path determines the file. -/
theorem eq_of_nodup_paths :
    ∀ {src : List SrcFile}, (src.map SrcFile.path).Nodup →
      ∀ {f g : SrcFile}, f ∈ src → g ∈ src → f.path = g.path → f = g := by
  intro src
  induction src with
  | nil =>
      intro _ f g hf
      exact absurd hf (List.not_mem_nil f)
  | cons a rest ih =>
      intro hnd f g hf hg hpq
      rw [List.map_cons, List.nodup_cons] at hnd
      obtain ⟨hna, hndr⟩ := hnd
      rcases List.mem_cons.mp hf with hf1 | hf2
      · rcases List.mem_cons.mp hg with hg1 | hg2
        · rw [hf1, hg1]
        · exfalso
          apply hna
          rw [hf1] at hpq
          rw [hpq]
          exact List.mem_map_of_mem _ hg2
      · rcases List.mem_cons.mp hg with hg1 | hg2
        · exfalso
          apply hna
          rw [hg1] at hpq
          rw [← hpq]
          exact List.mem_map_of_mem _ hf2
        · exact ih hndr hf2 hg2 hpq

/-- Paths untouched by every task keep their target entry. -/
theorem applyTasks_eq_of_no_task :
    ∀ (ts : List FileTask) (tgt : TargetFS) (p : RelPath),
      (∀ t ∈ ts, t.relative_path ≠ p) → applyTasks tgt ts p = tgt p := by
  intro ts
  induction ts with
  | nil => intro tgt p _; rfl
  | cons t rest ih =>
      intro tgt p h
      have hstep : applyTasks tgt (t :: rest) = applyTasks (applyTask tgt t) rest := rfl
      rw [hstep, ih _ p (fun u hu => h u (List.mem_cons_of_mem t hu))]
      unfold applyTask
      rw [if_neg (Ne.symm (h t (List.mem_cons_self t rest)))]

/-- Running a duplicate-free task list installs each task's metadata at its
path. -/
theorem applyTasks_eq_of_mem :
    ∀ (ts : List FileTask) (tgt : TargetFS) (t : FileTask),
      (ts.map FileTask.relative_path).Nodup → t ∈ ts →
      applyTasks tgt ts t.relative_path = some (taskMeta t) := by
  intro ts
  induction ts with
  | nil =>
      intro tgt t _ ht
      exact absurd ht (List.not_mem_nil t)
  | cons a rest ih =>
      intro tgt t hnd ht
      rw [List.map_cons, List.nodup_cons] at hnd
      obtain ⟨hna, hndr⟩ := hnd
      have hstep : applyTasks tgt (a :: rest) = applyTasks (applyTask tgt a) rest := rfl
      rcases List.mem_cons.mp ht with ht1 | ht2
      · subst ht1
        rw [hstep, applyTasks_eq_of_no_task rest (applyTask tgt t) t.relative_path ?hno]
        · unfold applyTask
          rw [if_pos rfl]
        · intro u hu he
          exact hna (he ▸ List.mem_map_of_mem _ hu)
      · rw [hstep]
        exact ih (applyTask tgt a) t hndr ht2

/-- Claim C2: incremental sync is idempotent — after an incremental run's
tasks are executed to completion, a second incremental run over an unchanged
source plans zero tasks. -/
theorem incremental_sync_idempotent
    (cfg : PlanConfig) (src : List SrcFile) (tgt : TargetFS)
    (hmode : cfg.syncType = SyncType.incremental)
    (hnd : (src.map SrcFile.path).Nodup) :
    plan cfg src (applyTasks tgt (plan cfg src tgt)) = [] := by
  rw [plan_eq_of_incremental cfg src (applyTasks tgt (plan cfg src tgt)) hmode,
    List.filterMap_eq_nil_iff]
  intro f hf
  by_cases ha : admits cfg f.path
  · have hfalse : needsSync (applyTasks tgt (plan cfg src tgt)) f = false := by
      cases hn : needsSync tgt f with
      | true =>
          have hmem : mkTask cfg f ∈ plan cfg src tgt := by
            unfold plan
            exact List.mem_filterMap.mpr ⟨f, hf, by simp [ha, hmode, hn]⟩
          have htnd : ((plan cfg src tgt).map FileTask.relative_path).Nodup :=
            List.Nodup.sublist (plan_paths_sublist cfg src tgt) hnd
          have hlook : applyTasks tgt (plan cfg src tgt) f.path = some f.meta := by
            have := applyTasks_eq_of_mem (plan cfg src tgt) tgt (mkTask cfg f) htnd hmem
            simpa [mkTask, taskMeta] using this
          simp [needsSync, hlook]
      | false =>
          have hno : ∀ t ∈ plan cfg src tgt, t.relative_path ≠ f.path := by
            intro t ht hteq
            unfold plan at ht
            obtain ⟨g, hgmem, hgsome⟩ := List.mem_filterMap.mp ht
            by_cases hag : admits cfg g.path
            · rw [hmode] at hgsome
              by_cases hng : needsSync tgt g
              · simp only [hag, if_true, hng, Option.some.injEq] at hgsome
                have hpq : g.path = f.path := by
                  rw [← hgsome] at hteq
                  exact hteq
                have hgf : g = f := eq_of_nodup_paths hnd hgmem hf hpq
                rw [hgf] at hng
                rw [hng] at hn
                exact Bool.noConfusion hn
              · simp [hag, hng] at hgsome
            · simp [hag] at hgsome
          have hsame : applyTasks tgt (plan cfg src tgt) f.path = tgt f.path :=
            applyTasks_eq_of_no_task (plan cfg src tgt) tgt f.path hno
          unfold needsSync at hn ⊢
          rw [hsame]
          exact hn
    simp [ha, hfalse]
  · simp [ha]

/-- Witness for `incremental_sync_idempotent`: one file against an empty
target; the second incremental plan is empty. -/
theorem incremental_sync_idempotent_witness :
    plan cfgInc [fileX] (applyTasks tgtEmpty (plan cfgInc [fileX] tgtEmpty)) = [] :=
  incremental_sync_idempotent cfgInc [fileX] tgtEmpty rfl (by simp)

end TransferSync
